import Mathlib

/-!
Shallow embedding of the recipe service in `src/main.py`: the SQLAlchemy
`Recipe` row model, the Pydantic request/response schemas, and the three
endpoint handlers `get_recipes`, `get_recipe_detail` and `create_recipe`.
The database table is modelled as a list of rows; SQLAlchemy/SQLite integer
columns are modelled as `Int`; Pydantic validation of the POST body is
modelled explicitly on a raw input whose fields may be absent.
-/

namespace RecipeApp

/-- The SQLAlchemy model `Recipe` (table `recipes`): integer primary key `id`,
`name`, `views` (defaults to 0), `cooking_time`, `ingredients`, `description`. -/
structure Recipe where
  id : Int
  name : String
  views : Int
  cooking_time : Int
  ingredients : String
  description : String
deriving Repr, DecidableEq

/-- The Pydantic schema `RecipeCreate`: the validated POST body.
Fields exactly: `name`, `cooking_time`, `ingredients`, `description`;
there is no `views` field. -/
structure RecipeCreate where
  name : String
  cooking_time : Int
  ingredients : String
  description : String
deriving Repr, DecidableEq

/-- The Pydantic schema `RecipeListItem`: one entry of the GET /recipes
response. Fields exactly: `name`, `views`, `cooking_time`. -/
structure RecipeListItem where
  name : String
  views : Int
  cooking_time : Int
deriving Repr, DecidableEq

/-- The Pydantic schema `RecipeDetail`: the GET /recipes/{id} and
POST /recipes response body. Fields exactly: `name`, `cooking_time`,
`ingredients`, `description`; there is no `views` and no `id` field. -/
structure RecipeDetail where
  name : String
  cooking_time : Int
  ingredients : String
  description : String
deriving Repr, DecidableEq

/-- A raw (unvalidated) POST /recipes body: each of the four fields of
`RecipeCreate` may be absent or fail type coercion, modelled by `Option`. -/
structure RawCreateInput where
  name : Option String
  cooking_time : Option Int
  ingredients : Option String
  description : Option String
deriving Repr, DecidableEq

/-- Pydantic validation of `RecipeCreate`:
`name`: required, `min_length=1`, `max_length=255`;
`cooking_time`: required int, `gt=0`;
`ingredients`, `description`: required strings.
Returns `none` exactly when FastAPI would answer 422. -/
def validateCreate (raw : RawCreateInput) : Option RecipeCreate :=
  match raw.name, raw.cooking_time, raw.ingredients, raw.description with
  | some n, some ct, some ing, some desc =>
      if 1 ≤ n.length ∧ n.length ≤ 255 ∧ 0 < ct then
        some { name := n, cooking_time := ct, ingredients := ing, description := desc }
      else none
  | _, _, _, _ => none

/-- The ORDER BY of `get_recipes`:
`Recipe.views.desc(), Recipe.cooking_time.asc()`.
`recipeLE a b` holds when `a` may come before `b`. -/
def recipeLE (a b : Recipe) : Bool :=
  decide (b.views < a.views) ||
    (a.views == b.views && decide (a.cooking_time ≤ b.cooking_time))

/-- Handler `get_recipes` (GET /recipes): select all rows ordered by
`views` descending then `cooking_time` ascending, and serialize each row
as a `RecipeListItem`. The database is not modified. -/
def get_recipes (db : List Recipe) : List RecipeListItem :=
  (db.mergeSort recipeLE).map fun r =>
    { name := r.name, views := r.views, cooking_time := r.cooking_time }

/-- Outcomes of `get_recipe_detail` other than a 200 response:
`notFound` is the `HTTPException(404, "Рецепт не найден")`;
`multipleResults` is the `MultipleResultsFound` error that
`scalar_one_or_none()` raises when more than one row matches the id. -/
inductive DetailError where
  | notFound
  | multipleResults
deriving Repr, DecidableEq

/-- Handler `get_recipe_detail` (GET /recipes/{recipe_id}):
`select(Recipe).where(Recipe.id == recipe_id)` then `scalar_one_or_none()`;
404 when no row matches; otherwise `recipe.views += 1`, `db.commit()`, and
the detail body is built from the (updated) row. Returns the response body
together with the committed database state. -/
def get_recipe_detail (recipe_id : Int) (db : List Recipe) :
    Except DetailError (RecipeDetail × List Recipe) :=
  match db.filter (fun r => r.id == recipe_id) with
  | [] => .error .notFound
  | [r] =>
      let updated : Recipe := { r with views := r.views + 1 }
      let committed := db.map fun x => if x.id == recipe_id then updated else x
      .ok ({ name := updated.name, cooking_time := updated.cooking_time,
             ingredients := updated.ingredients,
             description := updated.description }, committed)
  | _ :: _ :: _ => .error .multipleResults

/-- Id assignment by the store on insert: SQLite assigns the next integer
primary key, one greater than the largest id in the table. -/
def freshId (db : List Recipe) : Int :=
  (db.map Recipe.id).foldr max 0 + 1

/-- Handler `create_recipe` (POST /recipes), after validation: build a new
`Recipe` from the validated body with `views=0`, add and commit it, and
return its `RecipeDetail` body together with the new database state. -/
def create_recipe (input : RecipeCreate) (db : List Recipe) :
    RecipeDetail × List Recipe :=
  let new_recipe : Recipe :=
    { id := freshId db, name := input.name, views := 0,
      cooking_time := input.cooking_time, ingredients := input.ingredients,
      description := input.description }
  ({ name := new_recipe.name, cooking_time := new_recipe.cooking_time,
     ingredients := new_recipe.ingredients,
     description := new_recipe.description }, db ++ [new_recipe])

/-- The 422 outcome of POST /recipes when Pydantic validation fails. -/
inductive CreateError where
  | unprocessable
deriving Repr, DecidableEq

/-- POST /recipes at the HTTP boundary: validate the raw body; on failure
answer 422 without touching the store, otherwise run `create_recipe`. -/
def post_recipes (raw : RawCreateInput) (db : List Recipe) :
    Except CreateError (RecipeDetail × List Recipe) :=
  match validateCreate raw with
  | none => .error .unprocessable
  | some input => .ok (create_recipe input db)

/-- A JSON scalar appearing in a response body. -/
inductive JsonValue where
  | str (s : String)
  | int (n : Int)
deriving Repr, DecidableEq

/-- Serialization of `RecipeDetail` by the `response_model`: the fields of
the Pydantic model, in declaration order. -/
def serializeDetail (d : RecipeDetail) : List (String × JsonValue) :=
  [("name", .str d.name), ("cooking_time", .int d.cooking_time),
   ("ingredients", .str d.ingredients), ("description", .str d.description)]

/-- Serialization of `RecipeListItem` by the `response_model`: the fields of
the Pydantic model, in declaration order. -/
def serializeListItem (item : RecipeListItem) : List (String × JsonValue) :=
  [("name", .str item.name), ("views", .int item.views),
   ("cooking_time", .int item.cooking_time)]

/-- The three API operations. -/
inductive Op where
  | list
  | detail (recipe_id : Int)
  | create (raw : RawCreateInput)

/-- The database state after one API call: GET /recipes reads only; a
failed detail fetch or a failed create leaves the store unchanged. -/
def applyOp (db : List Recipe) : Op → List Recipe
  | .list => db
  | .detail rid =>
      match get_recipe_detail rid db with
      | .ok (_, db') => db'
      | .error _ => db
  | .create raw =>
      match post_recipes raw db with
      | .ok (_, db') => db'
      | .error _ => db

/-- The database state after a sequence of API calls. -/
def runOps (ops : List Op) (db : List Recipe) : List Recipe :=
  ops.foldl applyOp db

/-- A database state reachable from the empty store through API calls. -/
def Reachable (db : List Recipe) : Prop :=
  ∃ ops : List Op, db = runOps ops []

/-- The adjacency order the list response must satisfy: `views` descending,
and `cooking_time` ascending among entries with equal `views`. -/
def listOrdered (a b : RecipeListItem) : Prop :=
  b.views ≤ a.views ∧ (a.views = b.views → a.cooking_time ≤ b.cooking_time)

lemma recipeLE_trans (a b c : Recipe) (hab : recipeLE a b = true)
    (hbc : recipeLE b c = true) : recipeLE a c = true := by
  simp only [recipeLE, Bool.or_eq_true, Bool.and_eq_true, decide_eq_true_eq,
    beq_iff_eq] at *
  omega

lemma recipeLE_total (a b : Recipe) : (recipeLE a b || recipeLE b a) = true := by
  simp only [recipeLE, Bool.or_eq_true, Bool.and_eq_true, decide_eq_true_eq,
    beq_iff_eq]
  omega

/-- A raw create body with all four fields present. -/
def rawInput (n : String) (ct : Int) (ing desc : String) : RawCreateInput :=
  { name := some n, cooking_time := some ct, ingredients := some ing,
    description := some desc }

/-- C1: for every stored set of rows, GET /recipes lists them so that
adjacent entries have `views[i] ≥ views[i+1]`, and `cooking_time[i] ≤
cooking_time[i+1]` whenever `views[i] = views[i+1]`; and three recipes
created with views 0 and cooking times 30, 20, 10 are listed in
cooking-time order 10, 20, 30. -/
theorem get_recipes_sorted_by_views_then_time :
    (∀ db : List Recipe, (get_recipes db).Chain' listOrdered) ∧
    get_recipes (runOps [.create (rawInput "a" 30 "i" "d"),
        .create (rawInput "b" 20 "i" "d"),
        .create (rawInput "c" 10 "i" "d")] []) =
      [{ name := "c", views := 0, cooking_time := 10 },
       { name := "b", views := 0, cooking_time := 20 },
       { name := "a", views := 0, cooking_time := 30 }] := by
  constructor
  · intro db
    have hp : (db.mergeSort recipeLE).Pairwise (fun a b => recipeLE a b = true) :=
      List.sorted_mergeSort recipeLE_trans recipeLE_total db
    have hp2 : (get_recipes db).Pairwise listOrdered := by
      unfold get_recipes
      refine List.pairwise_map.mpr (hp.imp ?_)
      intro a b h
      simp only [recipeLE, Bool.or_eq_true, Bool.and_eq_true, decide_eq_true_eq,
        beq_iff_eq] at h
      simp only [listOrdered]
      omega
    exact hp2.chain'
  · have hdb : runOps [.create (rawInput "a" 30 "i" "d"),
        .create (rawInput "b" 20 "i" "d"),
        .create (rawInput "c" 10 "i" "d")] [] =
        [{ id := 1, name := "a", views := 0, cooking_time := 30,
           ingredients := "i", description := "d" },
         { id := 2, name := "b", views := 0, cooking_time := 20,
           ingredients := "i", description := "d" },
         { id := 3, name := "c", views := 0, cooking_time := 10,
           ingredients := "i", description := "d" }] := by decide
    rw [hdb]
    simp [get_recipes, List.mergeSort, recipeLE]

lemma filter_map_replace (db : List Recipe) (rid : Int) (upd : Recipe)
    (hupd : upd.id = rid) :
    (db.map fun x => if x.id == rid then upd else x).filter
        (fun x => x.id == rid) =
      List.replicate (db.filter (fun x => x.id == rid)).length upd := by
  induction db with
  | nil => rfl
  | cons x xs ih =>
    by_cases hx : x.id = rid <;>
      simp_all [List.filter_cons, List.replicate_succ, hupd]

/-- A sample stored row used by witnesses. -/
def sampleRow : Recipe :=
  { id := 1, name := "x", views := 3, cooking_time := 5,
    ingredients := "i", description := "d" }

/-- C2: a successful GET /recipes/{id} commits exactly one more view on the
row with that id: if the store held row `r` under the requested id, the
committed store holds `r` with `views := r.views + 1` under that id. -/
theorem detail_increments_views (recipe_id : Int) (db : List Recipe)
    (d : RecipeDetail) (db' : List Recipe)
    (h : get_recipe_detail recipe_id db = .ok (d, db')) :
    ∃ r : Recipe, db.filter (fun x => x.id == recipe_id) = [r] ∧
      db'.filter (fun x => x.id == recipe_id) =
        [{ r with views := r.views + 1 }] := by
  unfold get_recipe_detail at h
  cases hf : db.filter (fun x => x.id == recipe_id) with
  | nil => rw [hf] at h; simp at h
  | cons r rs =>
    cases rs with
    | cons r2 rs2 => rw [hf] at h; simp at h
    | nil =>
      rw [hf] at h
      simp only [Except.ok.injEq, Prod.mk.injEq] at h
      refine ⟨r, rfl, ?_⟩
      have hrid : r.id = recipe_id := by
        have hr : r ∈ db.filter (fun x => x.id == recipe_id) := by
          rw [hf]; exact List.mem_singleton.mpr rfl
        simpa using (List.of_mem_filter hr)
      rw [← h.2,
        filter_map_replace db recipe_id { r with views := r.views + 1 } hrid,
        hf]
      simp

/-- C2 witness: fetching id 1 on a one-row store with 3 views commits 4. -/
theorem detail_increments_views_witness :
    ∃ r : Recipe, [sampleRow].filter (fun x => x.id == 1) = [r] ∧
      [{ id := 1, name := "x", views := 4, cooking_time := 5,
         ingredients := "i", description := "d" }].filter
          (fun x => x.id == 1) = [{ r with views := r.views + 1 }] :=
  detail_increments_views 1 [sampleRow]
    { name := "x", cooking_time := 5, ingredients := "i", description := "d" }
    [{ id := 1, name := "x", views := 4, cooking_time := 5,
       ingredients := "i", description := "d" }] (by rfl)

/-- C3: when no stored row has the requested id, the detail fetch answers
404 and leaves the store unchanged; when some row has the id, the outcome
is never 404. -/
theorem detail_not_found_iff (recipe_id : Int) (db : List Recipe) :
    ((¬ ∃ r ∈ db, r.id = recipe_id) →
      get_recipe_detail recipe_id db = .error .notFound ∧
      applyOp db (.detail recipe_id) = db) ∧
    ((∃ r ∈ db, r.id = recipe_id) →
      get_recipe_detail recipe_id db ≠ .error .notFound) := by
  constructor
  · intro hno
    have hf : db.filter (fun x => x.id == recipe_id) = [] := by
      rw [List.filter_eq_nil_iff]
      intro r hr
      simp only [beq_iff_eq]
      exact fun he => hno ⟨r, hr, he⟩
    have hdet : get_recipe_detail recipe_id db = .error .notFound := by
      unfold get_recipe_detail
      rw [hf]
    refine ⟨hdet, ?_⟩
    simp [applyOp, hdet]
  · rintro ⟨r, hr, hid⟩ hcontra
    have hf : r ∈ db.filter (fun x => x.id == recipe_id) :=
      List.mem_filter.mpr ⟨hr, by simpa using hid⟩
    unfold get_recipe_detail at hcontra
    cases hfe : db.filter (fun x => x.id == recipe_id) with
    | nil => rw [hfe] at hf; simp at hf
    | cons a as =>
      rw [hfe] at hcontra
      cases as with
      | nil => simp at hcontra
      | cons b bs => simp at hcontra

/-- C3 witness: fetching id 5 on the empty store answers 404 and leaves the
store empty. -/
theorem detail_not_found_iff_witness :
    get_recipe_detail 5 [] = .error .notFound ∧
      applyOp [] (.detail 5) = ([] : List Recipe) :=
  (detail_not_found_iff 5 []).1 (by simp)

/-- The validity condition the Pydantic `RecipeCreate` schema enforces:
all four fields present, `name` of length 1..255, `cooking_time > 0`. -/
def createValid (raw : RawCreateInput) : Prop :=
  (∃ n, raw.name = some n ∧ 1 ≤ n.length ∧ n.length ≤ 255) ∧
  (∃ ct, raw.cooking_time = some ct ∧ 0 < ct) ∧
  (∃ s, raw.ingredients = some s) ∧ (∃ s, raw.description = some s)

lemma validateCreate_isSome_iff (raw : RawCreateInput) :
    (validateCreate raw).isSome ↔ createValid raw := by
  obtain ⟨n, ct, ing, desc⟩ := raw
  cases n <;> cases ct <;> cases ing <;> cases desc <;>
    simp [validateCreate, createValid, and_assoc]

/-- C4: a POST /recipes body missing a field, with an empty or over-long
name, or with a non-positive cooking time is answered 422 with no row
stored; every body meeting all the constraints passes validation. -/
theorem create_validation (raw : RawCreateInput) (db : List Recipe) :
    (¬ createValid raw →
      post_recipes raw db = .error .unprocessable ∧
      applyOp db (.create raw) = db) ∧
    (createValid raw → ∃ out, validateCreate raw = some out) := by
  constructor
  · intro hinv
    have hnone : validateCreate raw = none :=
      Option.not_isSome_iff_eq_none.mp
        ((not_congr (validateCreate_isSome_iff raw)).mpr hinv)
    constructor
    · simp [post_recipes, hnone]
    · simp [applyOp, post_recipes, hnone]
  · intro hval
    have := (validateCreate_isSome_iff raw).mpr hval
    simpa [Option.isSome_iff_exists] using this

/-- C4 witness: a body with `cooking_time = 0` is rejected and stores
nothing; a well-formed body passes validation. -/
theorem create_validation_witness :
    (post_recipes (rawInput "a" 0 "i" "d") [] = .error .unprocessable ∧
      applyOp [] (.create (rawInput "a" 0 "i" "d")) = ([] : List Recipe)) ∧
    (∃ out, validateCreate (rawInput "a" 30 "i" "d") = some out) :=
  ⟨(create_validation (rawInput "a" 0 "i" "d") []).1
      (by rintro ⟨-, ⟨ct, hct, hpos⟩, -, -⟩
          simp [rawInput] at hct
          omega),
   (create_validation (rawInput "a" 30 "i" "d") []).2
      ⟨⟨"a", rfl, by decide, by decide⟩, ⟨30, rfl, by decide⟩,
       ⟨"i", rfl⟩, ⟨"d", rfl⟩⟩⟩

/-- C5: every successful create stores a row whose `views` is 0, and the
`RecipeCreate` schema is determined by its four fields `name`,
`cooking_time`, `ingredients`, `description` — it carries no `views`. -/
theorem create_stores_views_zero :
    (∀ (input : RecipeCreate) (db : List Recipe),
      ∃ nr : Recipe, (create_recipe input db).2 = db ++ [nr] ∧ nr.views = 0) ∧
    (∀ a b : RecipeCreate, a.name = b.name → a.cooking_time = b.cooking_time →
      a.ingredients = b.ingredients → a.description = b.description →
      a = b) := by
  constructor
  · intro input db
    exact ⟨_, rfl, rfl⟩
  · intro a b h1 h2 h3 h4
    cases a; cases b; simp_all

/-- A sample validated create body used by witnesses. -/
def sampleCreate : RecipeCreate :=
  { name := "a", cooking_time := 30, ingredients := "i", description := "d" }

/-- C5 witness: creating on the empty store appends one row with 0 views,
and two `RecipeCreate` values with the same four fields coincide. -/
theorem create_stores_views_zero_witness :
    (∃ nr : Recipe,
      (create_recipe sampleCreate []).2 = [] ++ [nr] ∧ nr.views = 0) ∧
    sampleCreate = sampleCreate :=
  ⟨create_stores_views_zero.1 sampleCreate [],
   create_stores_views_zero.2 sampleCreate sampleCreate rfl rfl rfl rfl⟩

/-- How one API call may change one row: either it is left unchanged, or —
only when its id is the fetched id — its `views` is incremented. -/
def FrameStep (rid : Int) (a b : Recipe) : Prop :=
  b = a ∨ (a.id = rid ∧ b = { a with views := a.views + 1 })

/-- Which API call can mutate the row with id `i`: only a detail fetch of
that very id. -/
def opTouches (i : Int) : Op → Prop
  | .detail rid => rid = i
  | .list => False
  | .create _ => False

lemma applyOp_create_eq (raw : RawCreateInput) (db : List Recipe) :
    applyOp db (.create raw) =
      match validateCreate raw with
      | none => db
      | some input => (create_recipe input db).2 := by
  show (match post_recipes raw db with
      | .ok (_, db') => db'
      | .error _ => db) = _
  unfold post_recipes
  cases validateCreate raw <;> rfl

lemma applyOp_detail_eq (rid : Int) (db : List Recipe) :
    applyOp db (.detail rid) =
      match db.filter (fun r => r.id == rid) with
      | [r] => db.map fun x =>
          if x.id == rid then { r with views := r.views + 1 } else x
      | _ => db := by
  show (match get_recipe_detail rid db with
      | .ok (_, db') => db'
      | .error _ => db) = _
  unfold get_recipe_detail
  cases hf : db.filter (fun r => r.id == rid) with
  | nil => rfl
  | cons r rs => cases rs <;> rfl

lemma applyOp_detail_forall₂ (rid : Int) (db : List Recipe) :
    List.Forall₂ (FrameStep rid) db (applyOp db (.detail rid)) := by
  rw [applyOp_detail_eq]
  cases hf : db.filter (fun r => r.id == rid) with
  | nil =>
    exact List.forall₂_same.mpr fun a _ => Or.inl rfl
  | cons r rs =>
    cases rs with
    | cons r2 rs2 =>
      exact List.forall₂_same.mpr fun a _ => Or.inl rfl
    | nil =>
      refine List.forall₂_map_right_iff.mpr (List.forall₂_same.mpr ?_)
      intro a ha
      by_cases hid : a.id = rid
      · have har : a = r := by
          have : a ∈ db.filter (fun r => r.id == rid) :=
            List.mem_filter.mpr ⟨ha, by simpa using hid⟩
          rw [hf] at this
          simpa using this
        right
        refine ⟨hid, ?_⟩
        rw [if_pos (by simpa using hid), har]
      · left
        rw [if_neg (by simpa using hid)]

lemma applyOp_get_untouched (op : Op) (db : List Recipe) (i : Nat)
    (h : i < db.length) (hnt : ¬ opTouches (db.get ⟨i, h⟩).id op) :
    ∃ h' : i < (applyOp db op).length,
      (applyOp db op).get ⟨i, h'⟩ = db.get ⟨i, h⟩ := by
  cases op with
  | list => exact ⟨h, rfl⟩
  | create raw =>
    rcases hv : validateCreate raw with _ | input
    · rw [applyOp_create_eq, hv]
      exact ⟨h, rfl⟩
    · rw [applyOp_create_eq, hv]
      refine ⟨by simp [create_recipe]; omega, ?_⟩
      exact List.get_append_left _ _ h
  | detail rid =>
    have hrid : rid ≠ (db.get ⟨i, h⟩).id := by
      simpa [opTouches] using hnt
    rcases hf : db.filter (fun r => r.id == rid) with _ | ⟨r, _ | ⟨r2, rs2⟩⟩
    · rw [applyOp_detail_eq, hf]
      exact ⟨h, rfl⟩
    · rw [applyOp_detail_eq, hf]
      refine ⟨by simpa using h, ?_⟩
      rw [List.get_map]
      exact if_neg (by simpa using fun he => hrid he.symm)
    · rw [applyOp_detail_eq, hf]
      exact ⟨h, rfl⟩

lemma runOps_get_untouched (ops : List Op) (db : List Recipe) (i : Nat)
    (h : i < db.length)
    (hnt : ∀ op ∈ ops, ¬ opTouches (db.get ⟨i, h⟩).id op) :
    ∃ h' : i < (runOps ops db).length,
      (runOps ops db).get ⟨i, h'⟩ = db.get ⟨i, h⟩ := by
  induction ops generalizing db with
  | nil => exact ⟨h, rfl⟩
  | cons op ops ih =>
    obtain ⟨h1, hstep⟩ :=
      applyOp_get_untouched op db i h (hnt op (List.mem_cons_self op ops))
    have hnt' : ∀ o ∈ ops, ¬ opTouches ((applyOp db op).get ⟨i, h1⟩).id o := by
      rw [hstep]
      exact fun o ho => hnt o (List.mem_cons_of_mem op ho)
    obtain ⟨h2, hrest⟩ := ih (applyOp db op) h1 hnt'
    exact ⟨h2, hrest.trans hstep⟩

/-- C6: GET /recipes never changes the store; POST /recipes either leaves
the store unchanged or appends one new row with 0 views; a detail fetch
relates old and new stores row-by-row, each row either unchanged or — only
the row carrying the fetched id — bumped by one view; and a row whose id no
operation of a sequence detail-fetches is still present, unchanged, at its
position after the sequence runs. -/
theorem store_frame_conditions :
    (∀ db : List Recipe, applyOp db .list = db) ∧
    (∀ (raw : RawCreateInput) (db : List Recipe),
      applyOp db (.create raw) = db ∨
      ∃ nr : Recipe, nr.views = 0 ∧ applyOp db (.create raw) = db ++ [nr]) ∧
    (∀ (rid : Int) (db : List Recipe),
      List.Forall₂ (FrameStep rid) db (applyOp db (.detail rid))) ∧
    (∀ (ops : List Op) (db : List Recipe) (i : Nat) (h : i < db.length),
      (∀ op ∈ ops, ¬ opTouches (db.get ⟨i, h⟩).id op) →
      ∃ h' : i < (runOps ops db).length,
        (runOps ops db).get ⟨i, h'⟩ = db.get ⟨i, h⟩) := by
  refine ⟨fun db => rfl, ?_, applyOp_detail_forall₂, runOps_get_untouched⟩
  intro raw db
  rcases hv : validateCreate raw with _ | input
  · rw [applyOp_create_eq, hv]
    exact Or.inl rfl
  · rw [applyOp_create_eq, hv]
    exact Or.inr ⟨_, rfl, rfl⟩

/-- C6 witness: a detail fetch of id 2 on a store holding only id 1 leaves
that row in place unchanged. -/
theorem store_frame_conditions_witness :
    ∃ h' : 0 < (runOps [Op.detail 2] [sampleRow]).length,
      (runOps [Op.detail 2] [sampleRow]).get ⟨0, h'⟩ =
        [sampleRow].get ⟨0, by decide⟩ :=
  store_frame_conditions.2.2.2 [Op.detail 2] [sampleRow] 0 (by decide)
    (by intro op hop
        rw [List.mem_singleton] at hop
        subst hop
        simp [opTouches, sampleRow])

/-- The row invariant: non-negative views, positive cooking time, and a
name of 1 to 255 characters. -/
def RowOK (r : Recipe) : Prop :=
  0 ≤ r.views ∧ 0 < r.cooking_time ∧
    1 ≤ r.name.length ∧ r.name.length ≤ 255

lemma validateCreate_some_constraints (raw : RawCreateInput)
    (input : RecipeCreate) (h : validateCreate raw = some input) :
    1 ≤ input.name.length ∧ input.name.length ≤ 255 ∧
      0 < input.cooking_time := by
  obtain ⟨n, ct, ing, desc⟩ := raw
  cases n <;> cases ct <;> cases ing <;> cases desc <;>
    simp only [validateCreate] at h <;>
    try exact Option.noConfusion h
  split at h
  · cases h
    simp_all
  · cases h

lemma applyOp_preserves_RowOK (op : Op) (db : List Recipe)
    (hdb : ∀ r ∈ db, RowOK r) : ∀ r ∈ applyOp db op, RowOK r := by
  cases op with
  | list => exact hdb
  | create raw =>
    rcases hv : validateCreate raw with _ | input
    · rw [applyOp_create_eq, hv]
      exact hdb
    · rw [applyOp_create_eq, hv]
      intro r hr
      rcases List.mem_append.mp hr with hold | hnew
      · exact hdb r hold
      · obtain ⟨h1, h2, h3⟩ := validateCreate_some_constraints raw input hv
        rw [List.mem_singleton.mp hnew]
        exact ⟨le_refl 0, h3, h1, h2⟩
  | detail rid =>
    rcases hf : db.filter (fun r => r.id == rid) with _ | ⟨r0, _ | ⟨r2, rs2⟩⟩
    · rw [applyOp_detail_eq, hf]
      exact hdb
    · rw [applyOp_detail_eq, hf]
      have hr0db : r0 ∈ db := by
        have hmem : r0 ∈ db.filter (fun r => r.id == rid) := by
          rw [hf]; exact List.mem_singleton.mpr rfl
        exact List.mem_of_mem_filter hmem
      obtain ⟨hv0, hc0, hn10, hn20⟩ := hdb r0 hr0db
      intro r hr
      obtain ⟨a, ha, hfa⟩ := List.mem_map.mp hr
      by_cases hid : a.id = rid
      · rw [← hfa, if_pos (by simpa using hid)]
        refine ⟨?_, hc0, hn10, hn20⟩
        show (0 : Int) ≤ r0.views + 1
        omega
      · rw [← hfa, if_neg (by simpa using hid)]
        exact hdb a ha
    · rw [applyOp_detail_eq, hf]
      exact hdb

lemma runOps_preserves_RowOK (ops : List Op) (db : List Recipe)
    (hdb : ∀ r ∈ db, RowOK r) : ∀ r ∈ runOps ops db, RowOK r := by
  induction ops generalizing db with
  | nil => exact hdb
  | cons op ops ih => exact ih (applyOp db op) (applyOp_preserves_RowOK op db hdb)

/-- C7: every row of a store reachable from the empty store through the
three API operations has non-negative views, positive cooking time, and a
name of 1 to 255 characters — each operation preserves this. -/
theorem reachable_rows_invariant (db : List Recipe) (h : Reachable db) :
    ∀ r ∈ db, RowOK r := by
  obtain ⟨ops, hops⟩ := h
  rw [hops]
  exact runOps_preserves_RowOK ops [] (by simp)

/-- C7 witness: the row stored by one create on the empty store satisfies
the invariant. -/
theorem reachable_rows_invariant_witness :
    RowOK { id := 1, name := "a", views := 0, cooking_time := 30,
            ingredients := "i", description := "d" } :=
  reachable_rows_invariant
    [{ id := 1, name := "a", views := 0, cooking_time := 30,
       ingredients := "i", description := "d" }]
    ⟨[.create (rawInput "a" 30 "i" "d")], by decide⟩
    _ (List.mem_singleton.mpr rfl)

/-- C8: no response payload carries `id`; the detail/create body has
exactly the fields name, cooking_time, ingredients, description — no
`views`; the list entries have exactly name, views, cooking_time. -/
theorem response_payload_fields :
    (∀ d : RecipeDetail, (serializeDetail d).map Prod.fst =
      ["name", "cooking_time", "ingredients", "description"]) ∧
    (∀ item : RecipeListItem, (serializeListItem item).map Prod.fst =
      ["name", "views", "cooking_time"]) ∧
    (∀ d : RecipeDetail, "id" ∉ (serializeDetail d).map Prod.fst ∧
      "views" ∉ (serializeDetail d).map Prod.fst) ∧
    (∀ item : RecipeListItem,
      "id" ∉ (serializeListItem item).map Prod.fst) :=
  ⟨fun _ => rfl, fun _ => rfl,
   fun _ => ⟨by simp [serializeDetail], by simp [serializeDetail]⟩,
   fun _ => by simp [serializeListItem]⟩

/-- C9: GET /recipes returns exactly one {name, views, cooking_time} entry
per stored row: the response is a permutation of the projections of all
rows — nothing paginated, truncated or filtered. -/
theorem list_covers_all_rows (db : List Recipe) :
    (get_recipes db).Perm (db.map fun r =>
      { name := r.name, views := r.views, cooking_time := r.cooking_time }) :=
  (db.mergeSort_perm recipeLE).map _

/-- Two rows equal in every field except possibly `views`, and even in
`views` unless the row carries the given id. -/
def EqExceptViewsAt (rid : Int) (a b : Recipe) : Prop :=
  a.id = b.id ∧ a.name = b.name ∧ a.cooking_time = b.cooking_time ∧
  a.ingredients = b.ingredients ∧ a.description = b.description ∧
  (a.id ≠ rid → a.views = b.views)

lemma forall₂_filter_id (rid : Int) (db1 db2 : List Recipe)
    (h : List.Forall₂ (EqExceptViewsAt rid) db1 db2) :
    List.Forall₂ (EqExceptViewsAt rid)
      (db1.filter (fun r => r.id == rid))
      (db2.filter (fun r => r.id == rid)) := by
  induction h with
  | nil => exact List.Forall₂.nil
  | cons hab _ ih =>
    rename_i a b l1 l2 _
    by_cases hid : a.id = rid
    · rw [List.filter_cons_of_pos (by simpa using hid),
        List.filter_cons_of_pos (by simp [← hab.1, hid])]
      exact List.Forall₂.cons hab ih
    · rw [List.filter_cons_of_neg (by simpa using hid),
        List.filter_cons_of_neg (by simp [← hab.1, hid])]
      exact ih

lemma detail_ok_filter_singleton (rid : Int) (db : List Recipe)
    (d : RecipeDetail) (db' : List Recipe)
    (h : get_recipe_detail rid db = .ok (d, db')) :
    ∃ r : Recipe, db.filter (fun x => x.id == rid) = [r] := by
  unfold get_recipe_detail at h
  cases hf : db.filter (fun x => x.id == rid) with
  | nil => rw [hf] at h; simp at h
  | cons r rs =>
    cases rs with
    | nil => exact ⟨r, rfl⟩
    | cons r2 rs2 => rw [hf] at h; simp at h

lemma detail_body_of_filter (rid : Int) (db : List Recipe)
    (d : RecipeDetail) (db' : List Recipe) (r : Recipe)
    (h : get_recipe_detail rid db = .ok (d, db'))
    (hf : db.filter (fun x => x.id == rid) = [r]) :
    d = { name := r.name, cooking_time := r.cooking_time,
          ingredients := r.ingredients, description := r.description } := by
  unfold get_recipe_detail at h
  rw [hf] at h
  simp only [Except.ok.injEq, Prod.mk.injEq] at h
  exact h.1.symm

/-- C10: the body of a successful detail fetch depends only on the row's
name, cooking_time, ingredients and description: two stores differing only
in the views of the fetched row yield identical bodies. -/
theorem detail_body_independent_of_views (rid : Int)
    (db1 db2 db1' db2' : List Recipe) (d1 d2 : RecipeDetail)
    (hrel : List.Forall₂ (EqExceptViewsAt rid) db1 db2)
    (h1 : get_recipe_detail rid db1 = .ok (d1, db1'))
    (h2 : get_recipe_detail rid db2 = .ok (d2, db2')) :
    d1 = d2 := by
  have hff := forall₂_filter_id rid db1 db2 hrel
  obtain ⟨r1, hf1⟩ := detail_ok_filter_singleton rid db1 d1 db1' h1
  obtain ⟨r2, hf2⟩ := detail_ok_filter_singleton rid db2 d2 db2' h2
  rw [hf1, hf2] at hff
  obtain ⟨hid, hname, hct, hing, hdesc, -⟩ :=
    (List.forall₂_cons.mp hff).1
  rw [detail_body_of_filter rid db1 d1 db1' r1 h1 hf1,
    detail_body_of_filter rid db2 d2 db2' r2 h2 hf2,
    hname, hct, hing, hdesc]

/-- C10 witness: two one-row stores that differ only in that row's view
count (3 vs 7) answer the same detail body for id 1. -/
theorem detail_body_independent_of_views_witness :
    ({ name := "x", cooking_time := 5, ingredients := "i",
       description := "d" } : RecipeDetail) =
      { name := "x", cooking_time := 5, ingredients := "i",
        description := "d" } :=
  detail_body_independent_of_views 1 [sampleRow]
    [{ id := 1, name := "x", views := 7, cooking_time := 5,
       ingredients := "i", description := "d" }]
    [{ id := 1, name := "x", views := 4, cooking_time := 5,
       ingredients := "i", description := "d" }]
    [{ id := 1, name := "x", views := 8, cooking_time := 5,
       ingredients := "i", description := "d" }]
    { name := "x", cooking_time := 5, ingredients := "i", description := "d" }
    { name := "x", cooking_time := 5, ingredients := "i", description := "d" }
    (List.Forall₂.cons
      ⟨rfl, rfl, rfl, rfl, rfl, fun hne => absurd rfl hne⟩
      List.Forall₂.nil)
    (by rfl) (by rfl)

end RecipeApp
